/-
Verification development for the calculator repository (src/main.py).

The algorithmic core of the program is CalculatorEngine (src/main.py,
lines 124-205): textual constant substitution, an angle-mode dependent
regex rewrite of trigonometric calls, and delegation of the resulting
string to an external computer-algebra evaluator (sympy), followed by a
classification of the returned value.  Peripheral state: MemoryManager
(lines 83-123) with a JSON file as durable storage, and the history log
with its export/import to a plain-text file (lines 1201-1233).

Strings are modelled as List Char.  The regex operations used by the
source (re.sub with the patterns described below) are embedded as
explicit scanners with the same leftmost, non-overlapping semantics.
The external evaluator is not part of the repository; where a claim
depends on its behaviour it is modelled from the specification (see the
definitions marked "Modelled from the spec").
-/
import Mathlib

namespace Calculator

/-- Word character in the sense of the regex metacharacter backslash-b
used at src/main.py line 139: letters, digits and underscore. -/
def isWordChar (c : Char) : Bool := c.isAlphanum || c == '_'

/-- Tests whether the pattern p is a prefix of l (as a Bool). -/
def startsWithL : List Char → List Char → Bool
  | [], _ => true
  | _ :: _, [] => false
  | p :: ps, c :: cs => p == c && startsWithL ps cs

/-- Tests whether the pattern p occurs as a contiguous substring of l. -/
def containsSub (p : List Char) : List Char → Bool
  | [] => startsWithL p []
  | c :: rest => startsWithL p (c :: rest) || containsSub p rest

/-- Drops the pattern p from the front of l, or fails. -/
def dropPre : List Char → List Char → Option (List Char)
  | [], l => some l
  | _ :: _, [] => none
  | p :: ps, c :: cs => if p == c then dropPre ps cs else none

/-- True when the position after a matched constant name is a word
boundary: end of input or a non-word character. -/
def boundaryAfter : List Char → Bool
  | [] => true
  | c :: _ => !isWordChar c

/-- Scanner for one pass of re.sub(r'\b'+name+r'\b', val, expression)
(src/main.py line 139).  The Bool argument records whether the previous
character of the original string was a word character (word-boundary
test before the match); matching resumes after the matched text, whose
last character is a word character, exactly as re.sub scans the
original string.  The fuel argument dominates the input length. -/
def subConstAux (name val : List Char) : Nat → Bool → List Char → List Char
  | 0, _, l => l
  | _ + 1, _, [] => []
  | fuel + 1, prevW, c :: rest =>
    if !prevW && startsWithL name (c :: rest)
        && boundaryAfter (List.drop name.length (c :: rest)) then
      val ++ subConstAux name val fuel true (List.drop name.length (c :: rest))
    else
      c :: subConstAux name val fuel (isWordChar c) rest

/-- One constant-substitution pass over the expression. -/
def subConst (name val : String) (l : List Char) : List Char :=
  subConstAux name.toList val.toList l.length false l

/-- The constant table of CalculatorEngine.__init__ (src/main.py lines
128-134), with each value rendered as Python str() renders the
corresponding double, since line 139 substitutes str(value). -/
def constantsTable : List (String × String) :=
  [("pi", "3.141592653589793"),
   ("e", "2.718281828459045"),
   ("phi", "1.618033988749895"),
   ("tau", "6.283185307179586"),
   ("inf", "inf")]

/-- The constant-substitution loop of CalculatorEngine.evaluate
(src/main.py lines 138-139), applied in table order. -/
def substituteConstants (l : List Char) : List Char :=
  constantsTable.foldl (fun s p => subConst p.1 p.2 s) l

/-- One attempted match of the pattern f\(([^\)]+)\) at the head of l:
the literal name f, an opening parenthesis, a non-empty greedy run of
non-')' characters, and a closing parenthesis.  Returns the captured
argument and the remainder of the string. -/
def tryTrig (f : List Char) (l : List Char) : Option (List Char × List Char) :=
  match dropPre f l with
  | none => none
  | some [] => none
  | some (c :: r2) =>
    if c = '(' then
      let arg := r2.takeWhile (fun c => c != ')')
      match r2.drop arg.length with
      | ')' :: r3 => if arg.isEmpty then none else some (arg, r3)
      | _ => none
    else none

/-- Replacement suffix inserted by the degree-mode rewrite: the
replacement template is f(\1 * pi/180) (src/main.py line 161). -/
def degreeSuffix : List Char := (" * pi/180)").toList

/-- Scanner for re.sub of the trig pattern (src/main.py lines 160-161):
leftmost match, replacement emitted, scan resumes after the match. -/
def trigSubAux (f : List Char) : Nat → List Char → List Char
  | 0, l => l
  | _ + 1, [] => []
  | fuel + 1, c :: rest =>
    match tryTrig f (c :: rest) with
    | some (arg, r') => (f ++ '(' :: (arg ++ degreeSuffix)) ++ trigSubAux f fuel r'
    | none => c :: trigSubAux f fuel rest

/-- One full substitution pass for a single trig function name. -/
def trigSub (f : String) (l : List Char) : List Char :=
  trigSubAux f.toList l.length l

/-- Trig function names rewritten in degree mode (src/main.py line 158),
in the order the source iterates over them. -/
def trigFuncs : List String := ["sin", "cos", "tan", "cot", "sec", "csc"]

/-- Angle mode of the engine (src/main.py line 135 and lines 989-995). -/
inductive AngleMode
  | radians
  | degrees
deriving DecidableEq

/-- CalculatorEngine._handle_special_functions (src/main.py lines
156-162): in degree mode each trig pattern is rewritten in turn;
otherwise the expression is returned unchanged. -/
def handleSpecialFunctions (mode : AngleMode) (l : List Char) : List Char :=
  match mode with
  | .degrees => trigFuncs.foldl (fun s f => trigSub f s) l
  | .radians => l

/-- Abstract syntax of the infix expressions handled by the external
evaluator.  Identifier and function names are kept as character lists. -/
inductive Expr
  | num (q : ℚ)
  | ident (s : List Char)
  | add (a b : Expr)
  | sub (a b : Expr)
  | mul (a b : Expr)
  | div (a b : Expr)
  | pow (a b : Expr)
  | neg (a : Expr)
  | call (f : List Char) (a : Expr)
deriving DecidableEq

/-- Tokens of the expression language. -/
inductive Tok
  | num (q : ℚ)
  | id (s : List Char)
  | plus
  | minus
  | star
  | slash
  | caret
  | lpar
  | rpar
deriving DecidableEq

/-- Numeric value of a digit string. -/
def natOfDigits (l : List Char) : ℕ :=
  l.foldl (fun n c => 10 * n + (c.toNat - '0'.toNat)) 0

/-- Modelled from the spec: tokenizer of the ASCII infix notation the
external evaluator (sympy sympify, src/main.py line 142) accepts.  The
repository contains no parser of its own; this models the evaluator
input contract of spec section 6 for the fragment the claims exercise:
decimal literals, identifiers, + - * / ^, parentheses and spaces.
The caret is exponentiation, as sympify converts it.  An unrecognized
character makes tokenization fail. -/
def lexAux : Nat → List Char → Option (List Tok)
  | 0, [] => some []
  | 0, _ :: _ => none
  | _ + 1, [] => some []
  | fuel + 1, c :: rest =>
    if c == ' ' then lexAux fuel rest
    else if c.isDigit then
      let ds := (c :: rest).takeWhile Char.isDigit
      let r1 := (c :: rest).drop ds.length
      match r1 with
      | '.' :: r2 =>
        let fs := r2.takeWhile Char.isDigit
        let r3 := r2.drop fs.length
        let q : ℚ := (natOfDigits ds : ℚ) + (natOfDigits fs : ℚ) / ((10 : ℚ) ^ fs.length)
        (lexAux fuel r3).map (fun ts => Tok.num q :: ts)
      | _ => (lexAux fuel r1).map (fun ts => Tok.num (natOfDigits ds) :: ts)
    else if c.isAlpha then
      let as := (c :: rest).takeWhile Char.isAlpha
      (lexAux fuel ((c :: rest).drop as.length)).map (fun ts => Tok.id as :: ts)
    else if c == '+' then (lexAux fuel rest).map (fun ts => Tok.plus :: ts)
    else if c == '-' then (lexAux fuel rest).map (fun ts => Tok.minus :: ts)
    else if c == '*' then (lexAux fuel rest).map (fun ts => Tok.star :: ts)
    else if c == '/' then (lexAux fuel rest).map (fun ts => Tok.slash :: ts)
    else if c == '^' then (lexAux fuel rest).map (fun ts => Tok.caret :: ts)
    else if c == '(' then (lexAux fuel rest).map (fun ts => Tok.lpar :: ts)
    else if c == ')' then (lexAux fuel rest).map (fun ts => Tok.rpar :: ts)
    else none

/-- Tokenizer entry point. -/
def lexChars (l : List Char) : Option (List Tok) := lexAux l.length l

mutual

/-- Modelled from the spec: additive level of the infix grammar. -/
def parseE : Nat → List Tok → Option (Expr × List Tok)
  | 0, _ => none
  | fuel + 1, t =>
    match parseT fuel t with
    | none => none
    | some (e, r) => parseETail fuel e r

/-- Left-associative chain of + and -. -/
def parseETail : Nat → Expr → List Tok → Option (Expr × List Tok)
  | 0, _, _ => none
  | fuel + 1, acc, Tok.plus :: r =>
    match parseT fuel r with
    | none => none
    | some (e, r') => parseETail fuel (.add acc e) r'
  | fuel + 1, acc, Tok.minus :: r =>
    match parseT fuel r with
    | none => none
    | some (e, r') => parseETail fuel (.sub acc e) r'
  | _ + 1, acc, r => some (acc, r)

/-- Multiplicative level. -/
def parseT : Nat → List Tok → Option (Expr × List Tok)
  | 0, _ => none
  | fuel + 1, t =>
    match parseF fuel t with
    | none => none
    | some (e, r) => parseTTail fuel e r

/-- Left-associative chain of * and /. -/
def parseTTail : Nat → Expr → List Tok → Option (Expr × List Tok)
  | 0, _, _ => none
  | fuel + 1, acc, Tok.star :: r =>
    match parseF fuel r with
    | none => none
    | some (e, r') => parseTTail fuel (.mul acc e) r'
  | fuel + 1, acc, Tok.slash :: r =>
    match parseF fuel r with
    | none => none
    | some (e, r') => parseTTail fuel (.div acc e) r'
  | _ + 1, acc, r => some (acc, r)

/-- Unary minus level; minus binds looser than the caret. -/
def parseF : Nat → List Tok → Option (Expr × List Tok)
  | 0, _ => none
  | fuel + 1, Tok.minus :: r =>
    match parseF fuel r with
    | none => none
    | some (e, r') => some (.neg e, r')
  | fuel + 1, t => parseP fuel t

/-- Power level, right associative. -/
def parseP : Nat → List Tok → Option (Expr × List Tok)
  | 0, _ => none
  | fuel + 1, t =>
    match parseA fuel t with
    | none => none
    | some (b, r) =>
      match r with
      | Tok.caret :: r' =>
        match parseF fuel r' with
        | none => none
        | some (e, r'') => some (.pow b e, r'')
      | _ => some (b, r)

/-- Atoms: literals, identifiers, calls and parenthesized expressions. -/
def parseA : Nat → List Tok → Option (Expr × List Tok)
  | 0, _ => none
  | _ + 1, Tok.num q :: r => some (.num q, r)
  | fuel + 1, Tok.id s :: Tok.lpar :: r =>
    match parseE fuel r with
    | none => none
    | some (a, r') =>
      match r' with
      | Tok.rpar :: r'' => some (.call s a, r'')
      | _ => none
  | _ + 1, Tok.id s :: r => some (.ident s, r)
  | fuel + 1, Tok.lpar :: r =>
    match parseE fuel r with
    | none => none
    | some (a, r') =>
      match r' with
      | Tok.rpar :: r'' => some (a, r'')
      | _ => none
  | _ + 1, _ => none

end

/-- Modelled from the spec: parser entry point of the external
evaluator; the whole token stream must be consumed. -/
def parseStr (l : List Char) : Option Expr :=
  match lexChars l with
  | none => none
  | some toks =>
    match parseE (4 * toks.length + 8) toks with
    | some (e, []) => some e
    | _ => none

/-- Outcome of exact numeric reduction by the external evaluator. -/
inductive NumOutcome
  | val (q : ℚ)
  | symbolic
  | failed (msg : String)
deriving DecidableEq

/-- Combination of two reduction outcomes under a binary operation:
a definite failure propagates, otherwise a non-numeric operand keeps
the expression symbolic. -/
def combineOutcome (op : ℚ → ℚ → ℚ) : NumOutcome → NumOutcome → NumOutcome
  | .failed m, _ => .failed m
  | _, .failed m => .failed m
  | .val x, .val y => .val (op x y)
  | _, _ => .symbolic

/-- Modelled from the spec: exact numeric reduction performed by the
external evaluator (sympify followed by evalf, src/main.py line 142) on
the rational fragment.  Division by zero is the evaluation failure the
spec requires for the expression 1/0 (spec section 8); identifiers and
function calls that are not plain numbers are left symbolic. -/
def evalQ : Expr → NumOutcome
  | .num q => .val q
  | .ident _ => .symbolic
  | .call _ _ => .symbolic
  | .neg a =>
    match evalQ a with
    | .val q => .val (-q)
    | x => x
  | .add a b => combineOutcome (fun x y => x + y) (evalQ a) (evalQ b)
  | .sub a b => combineOutcome (fun x y => x - y) (evalQ a) (evalQ b)
  | .mul a b => combineOutcome (fun x y => x * y) (evalQ a) (evalQ b)
  | .div a b =>
    match evalQ a, evalQ b with
    | .failed m, _ => .failed m
    | _, .failed m => .failed m
    | .val x, .val y => if y = 0 then .failed "division by zero" else .val (x / y)
    | _, _ => .symbolic
  | .pow a b =>
    match evalQ a, evalQ b with
    | .failed m, _ => .failed m
    | _, .failed m => .failed m
    | .val x, .val y =>
      if y.den = 1 then
        if 0 ≤ y.num then .val (x ^ y.num.toNat)
        else if x = 0 then .failed "zero to a negative power"
        else .val (x ^ y.num)
      else .symbolic
    | _, _ => .symbolic

/-- Value returned by the external evaluator, as inspected by the
isinstance chain of CalculatorEngine.evaluate (src/main.py lines
143-152): an exact float, integer or rational, a complex number, or an
arbitrary symbolic value. -/
inductive SymValue
  | float (q : ℚ)
  | integer (n : ℤ)
  | rational (q : ℚ)
  | complexVal (re im : ℚ)
  | symbolic (e : Expr)
deriving DecidableEq

/-- Result of CalculatorEngine.evaluate: a real number (the source
coerces with float()), a complex pair (complex()), or the external
symbolic representation returned untouched (line 152). -/
inductive EvalResult
  | real (q : ℚ)
  | complexPair (re im : ℚ)
  | fallback (e : Expr)
deriving DecidableEq

/-- The isinstance classification chain of src/main.py lines 143-152. -/
def classify : SymValue → EvalResult
  | .float q => .real q
  | .integer n => .real n
  | .rational q => .real q
  | .complexVal a b => .complexPair a b
  | .symbolic e => .fallback e

/-- The two preprocessing steps of CalculatorEngine.evaluate
(src/main.py lines 138-140): constant substitution, then the
angle-mode rewrite. -/
def preprocess (mode : AngleMode) (l : List Char) : List Char :=
  handleSpecialFunctions mode (substituteConstants l)

/-- CalculatorEngine.evaluate (src/main.py lines 136-155) over an
arbitrary external evaluator ext: preprocess, delegate, classify; any
failure of the external evaluator is caught and surfaced as a MathError
whose message wraps the original one (line 155).  Errors are modelled
as the error side of Except, carrying the MathError message. -/
def evaluateAbs (ext : List Char → Except String SymValue) (mode : AngleMode)
    (l : List Char) : Except String EvalResult :=
  match ext (preprocess mode l) with
  | .error m => .error ("Error evaluating expression: " ++ m)
  | .ok v => .ok (classify v)

/-- Modelled from the spec: the external evaluator (sympify plus evalf,
src/main.py line 142), which is a library external to the repository.
Parsing failure is an evaluation failure; an expression that reduces to
an exact number comes back as a float (evalf); an expression that does
not reduce (unknown identifier, transcendental call) comes back as an
opaque symbolic value, per spec sections 4.1 and 6. -/
def sympifyEvalf (l : List Char) : Except String SymValue :=
  match parseStr l with
  | none => .error "could not parse expression"
  | some e =>
    match evalQ e with
    | .val q => .ok (.float q)
    | .symbolic => .ok (.symbolic e)
    | .failed m => .error m

/-- CalculatorEngine.evaluate instantiated with the modelled external
evaluator. -/
def evaluate (mode : AngleMode) (l : List Char) : Except String EvalResult :=
  evaluateAbs sympifyEvalf mode l

/-- Decimal rendering used by the display; stands for Python str() on
the result value.  Only the integer branch is examined by any claim. -/
def floatRepr (q : ℚ) : String := toString q

/-- Result formatting of AdvancedCalculator.calculate (src/main.py
lines 782-788): a complex result is rendered with str; a result equal
to its integer part is rendered as that integer; otherwise the value is
rendered as a float.  On a symbolic fallback value the int() coercion
of line 785 raises, which the surrounding handler of line 796 turns
into an error display; that is the error side here. -/
def resultString : EvalResult → Except String String
  | .real q => .ok (if q.den = 1 then toString q.num else floatRepr q)
  | .complexPair a b => .ok ("(" ++ floatRepr a ++ "+" ++ floatRepr b ++ "j)")
  | .fallback _ => .error "cannot coerce symbolic result to int"

/-- Real-number semantics of the external evaluator on the fragment
with the symbolic constant pi and transcendental functions: the exact
value that evalf approximates.  The identifier pi left in the string by
the degree rewrite is sympy's exact pi.  Division requires a nonzero
denominator. -/
inductive EvalR : Expr → ℝ → Prop
  | num (q : ℚ) : EvalR (.num q) (q : ℝ)
  | piConst : EvalR (.ident ['p', 'i']) Real.pi
  | add {a b : Expr} {x y : ℝ} : EvalR a x → EvalR b y → EvalR (.add a b) (x + y)
  | sub {a b : Expr} {x y : ℝ} : EvalR a x → EvalR b y → EvalR (.sub a b) (x - y)
  | mul {a b : Expr} {x y : ℝ} : EvalR a x → EvalR b y → EvalR (.mul a b) (x * y)
  | div {a b : Expr} {x y : ℝ} : EvalR a x → EvalR b y → y ≠ 0 → EvalR (.div a b) (x / y)
  | neg {a : Expr} {x : ℝ} : EvalR a x → EvalR (.neg a) (-x)
  | sin {a : Expr} {x : ℝ} : EvalR a x → EvalR (.call ['s', 'i', 'n'] a) (Real.sin x)
  | cos {a : Expr} {x : ℝ} : EvalR a x → EvalR (.call ['c', 'o', 's'] a) (Real.cos x)
  | asin {a : Expr} {x : ℝ} : EvalR a x → EvalR (.call ['a', 's', 'i', 'n'] a) (Real.arcsin x)
  | acos {a : Expr} {x : ℝ} : EvalR a x → EvalR (.call ['a', 'c', 'o', 's'] a) (Real.arccos x)
  | atan {a : Expr} {x : ℝ} : EvalR a x → EvalR (.call ['a', 't', 'a', 'n'] a) (Real.arctan x)

/-- The evaluate pipeline under real-number semantics: the preprocessed
expression parses and its parse tree denotes the real number r. -/
def evaluatesToR (mode : AngleMode) (l : List Char) (r : ℝ) : Prop :=
  ∃ e : Expr, parseStr (preprocess mode l) = some e ∧ EvalR e r

deriving instance DecidableEq for Except

example : parseStr "2+2".toList = some (.add (.num 2) (.num 2)) := by decide
example : parseStr "1/0".toList = some (.div (.num 1) (.num 0)) := by decide
example : evaluate .radians "2+2".toList = .ok (.real 4) := by
  with_unfolding_all rfl
example : evaluate .radians "1/0".toList
    = .error "Error evaluating expression: division by zero" := by
  with_unfolding_all rfl
example : evaluate .radians "pi".toList
    = .ok (.real (3141592653589793 / 1000000000000000)) := by
  with_unfolding_all rfl
example : evaluate .radians "piano".toList
    = .ok (.fallback (.ident ['p', 'i', 'a', 'n', 'o'])) := by
  with_unfolding_all rfl
example : parseStr "sin(90 * pi/180)".toList
    = some (.call ['s', 'i', 'n'] (.div (.mul (.num 90) (.ident ['p', 'i'])) (.num 180)))
    := by decide

/-- One stored memory entry (src/main.py lines 78-82). -/
structure MemoryItem where
  value : ℚ
  expression : List Char
  timestamp : List Char
deriving DecidableEq

/-- Content of the durable memory file calculator_memory.json
(src/main.py lines 104-107). -/
structure MemoryFile where
  memory_register : ℚ
  memory_items : List (ℚ × List Char × List Char)
deriving DecidableEq

/-- In-memory state of MemoryManager (src/main.py lines 83-88)
together with the durable storage it writes to; none models a missing
file. -/
structure MemoryState where
  memory : List MemoryItem
  memory_register : ℚ
  file : Option MemoryFile
deriving DecidableEq

/-- The record save_memory serializes (src/main.py lines 104-107). -/
def encodeMemory (s : MemoryState) : MemoryFile :=
  ⟨s.memory_register, s.memory.map (fun i => (i.value, i.expression, i.timestamp))⟩

/-- MemoryManager.save_memory (src/main.py lines 102-111): writes the
register and item list to the file; a write failure (ok = false) is
logged and swallowed, leaving both the file and the in-memory state
unchanged, and the call still returns normally. -/
def save_memory (ok : Bool) (s : MemoryState) : MemoryState :=
  if ok then { s with file := some (encodeMemory s) } else s

/-- MemoryManager.add_to_memory (src/main.py lines 89-93): append the
item, then save. -/
def add_to_memory (v : ℚ) (expr ts : List Char) (ok : Bool) (s : MemoryState) :
    MemoryState :=
  save_memory ok { s with memory := s.memory ++ [⟨v, expr, ts⟩] }

/-- MemoryManager.clear_memory (src/main.py lines 94-96): empty the
item list, then save. -/
def clear_memory (ok : Bool) (s : MemoryState) : MemoryState :=
  save_memory ok { s with memory := [] }

/-- AdvancedCalculator.memory_store (src/main.py lines 856-867): the
displayed value is added to the item list and saved, and only after
that save is the register set to the value, so the file written by this
operation still holds the previous register. -/
def memory_store (v : ℚ) (expr ts : List Char) (ok : Bool) (s : MemoryState) :
    MemoryState :=
  let s1 := add_to_memory v expr ts ok s
  { s1 with memory_register := v }

/-- AdvancedCalculator.memory_add (src/main.py lines 885-894): the
register is incremented in memory only; save_memory is never called. -/
def memory_add (v : ℚ) (s : MemoryState) : MemoryState :=
  { s with memory_register := s.memory_register + v }

/-- AdvancedCalculator.memory_subtract (src/main.py lines 895-904):
the register is decremented in memory only; save_memory is never
called. -/
def memory_subtract (v : ℚ) (s : MemoryState) : MemoryState :=
  { s with memory_register := s.memory_register - v }

/-- AdvancedCalculator.memory_clear (src/main.py lines 905-912): zero
the register, then clear and save the item list. -/
def memory_clear (ok : Bool) (s : MemoryState) : MemoryState :=
  clear_memory ok { s with memory_register := 0 }

/-- MemoryManager.add_to_history (src/main.py lines 97-99): the entry
is the expression and the result joined by an equals sign. -/
def add_to_history (expr res : List Char) (h : List (List Char)) :
    List (List Char) :=
  h ++ [expr ++ (" = ").toList ++ res]

/-- First match of the pattern, returning the text before it and the
text after it.  Also models str.split(sep, 1) and str.split('=', 1)
(src/main.py line 167). -/
def findSplit (sep : List Char) : List Char → Option (List Char × List Char)
  | [] => none
  | c :: rest =>
    if startsWithL sep (c :: rest) then some ([], List.drop sep.length (c :: rest))
    else
      match findSplit sep rest with
      | some (b, a) => some (c :: b, a)
      | none => none

/-- Python str.split on a non-empty separator: leftmost-first,
non-overlapping (src/main.py line 1227). -/
def splitSubAux (sep : List Char) : Nat → List Char → List (List Char)
  | 0, l => [l]
  | fuel + 1, l =>
    match findSplit sep l with
    | none => [l]
    | some (b, a) => b :: splitSubAux sep fuel a

/-- Split entry point with fuel covering the input. -/
def splitSub (sep l : List Char) : List (List Char) :=
  splitSubAux sep l.length l

/-- The blank-line separator used by history save and load
(src/main.py lines 1213 and 1227). -/
def historySep : List Char := ('\n' :: '\n' :: [])

/-- Join a list of entries with the separator between consecutive
entries, as str.join does. -/
def joinSep (sep : List Char) : List (List Char) → List Char
  | [] => []
  | [x] => x
  | x :: xs => x ++ sep ++ joinSep sep xs

/-- The text blob written by AdvancedCalculator.save_history
(src/main.py line 1213): entries joined by a blank line. -/
def save_history_blob (h : List (List Char)) : List Char :=
  joinSep historySep h

/-- True when the entry has a character that str.strip does not remove,
so the entry is kept by the import filter. -/
def keptEntry (e : List Char) : Bool := e.any (fun c => !c.isWhitespace)

/-- The entry list produced by AdvancedCalculator.load_history
(src/main.py line 1227): split the blob on the blank-line separator and
discard entries that are blank after stripping. -/
def load_history_entries (content : List Char) : List (List Char) :=
  (splitSub historySep content).filter keptEntry

/-- Python str.strip: leading and trailing whitespace removed
(src/main.py line 168). -/
def stripWS (l : List Char) : List Char :=
  ((l.dropWhile Char.isWhitespace).reverse.dropWhile Char.isWhitespace).reverse

/-- Dense representation of a polynomial of degree at most two:
c0 + c1 x + c2 x squared. -/
structure Poly2 where
  c0 : ℚ
  c1 : ℚ
  c2 : ℚ
deriving DecidableEq

/-- Product of two quadratics when the result still has degree at most
two, otherwise failure. -/
def polyMul (p q : Poly2) : Option Poly2 :=
  if p.c1 * q.c2 + p.c2 * q.c1 = 0 ∧ p.c2 * q.c2 = 0 then
    some ⟨p.c0 * q.c0, p.c0 * q.c1 + p.c1 * q.c0, p.c0 * q.c2 + p.c1 * q.c1 + p.c2 * q.c0⟩
  else none

/-- Modelled from the spec: extraction of polynomial coefficients in
the unknown from a parse tree, the part of the external solving
capability (sympy solve, src/main.py lines 169 and 172) the solved
claim exercises.  Non-polynomial shapes are rejected. -/
def toPoly (v : List Char) : Expr → Option Poly2
  | .num q => some ⟨q, 0, 0⟩
  | .ident s => if s = v then some ⟨0, 1, 0⟩ else none
  | .add a b => do
    let pa ← toPoly v a
    let pb ← toPoly v b
    pure ⟨pa.c0 + pb.c0, pa.c1 + pb.c1, pa.c2 + pb.c2⟩
  | .sub a b => do
    let pa ← toPoly v a
    let pb ← toPoly v b
    pure ⟨pa.c0 - pb.c0, pa.c1 - pb.c1, pa.c2 - pb.c2⟩
  | .neg a => do
    let pa ← toPoly v a
    pure ⟨-pa.c0, -pa.c1, -pa.c2⟩
  | .mul a b => do
    let pa ← toPoly v a
    let pb ← toPoly v b
    polyMul pa pb
  | .div a b => do
    let pa ← toPoly v a
    let pb ← toPoly v b
    if pb.c1 = 0 ∧ pb.c2 = 0 ∧ pb.c0 ≠ 0 then
      pure ⟨pa.c0 / pb.c0, pa.c1 / pb.c0, pa.c2 / pb.c0⟩
    else none
  | .pow a b =>
    match b with
    | .num q =>
      if q = 2 then do
        let pa ← toPoly v a
        polyMul pa pa
      else if q = 1 then toPoly v a
      else if q = 0 then some ⟨1, 0, 0⟩
      else none
    | _ => none
  | .call _ _ => none

/-- Exact rational square root, when it exists. -/
def ratSqrt (q : ℚ) : Option ℚ :=
  if q < 0 then none
  else
    let sn := Nat.sqrt q.num.toNat
    let sd := Nat.sqrt q.den
    if sn * sn = q.num.toNat ∧ sd * sd = q.den then some ((sn : ℚ) / (sd : ℚ))
    else none

/-- Modelled from the spec: roots of a polynomial of degree at most
two, real rational roots listed in increasing order as the external
solver returns them for the solved claim; an unsolvable shape fails. -/
def solvePoly (p : Poly2) : Option (List ℚ) :=
  if p.c2 ≠ 0 then
    (ratSqrt (p.c1 ^ 2 - 4 * p.c2 * p.c0)).map fun s =>
      if s = 0 then [-p.c1 / (2 * p.c2)]
      else [(-p.c1 - s) / (2 * p.c2), (-p.c1 + s) / (2 * p.c2)]
  else if p.c1 ≠ 0 then some [-p.c0 / p.c1]
  else some []

/-- CalculatorEngine.solve_equation (src/main.py lines 163-183): an
equation containing the equals sign is split at its first occurrence
and both stripped sides are parsed (lines 166-169); otherwise the whole
expression is equated to zero (lines 170-172).  Solving is delegated to
the modelled external capability on the difference of the two sides;
the returned roots are already real numbers, matching the float
coercion of lines 174-179.  Any failure is wrapped as a MathError
(line 183). -/
def solve_equation (eq : List Char) : Except String (List ℚ) :=
  let sides :=
    match findSplit ['='] eq with
    | some (lhs, rhs) => (stripWS lhs, stripWS rhs)
    | none => (eq, ['0'])
  match parseStr sides.1, parseStr sides.2 with
  | some el, some er =>
    match toPoly ['x'] (.sub el er) with
    | some p =>
      match solvePoly p with
      | some roots => .ok roots
      | none => .error "Error solving equation: could not solve"
    | none => .error "Error solving equation: could not solve"
  | _, _ => .error "Error solving equation: could not parse"

example : solve_equation "x^2 - 4 = 0".toList = .ok [-2, 2] := by
  with_unfolding_all rfl
example : memory_add 5 ⟨[], 0, some ⟨0, []⟩⟩ = ⟨[], 5, some ⟨0, []⟩⟩ := by
  with_unfolding_all rfl
example : load_history_entries (save_history_blob ["a = b\n".toList, "c = d".toList])
    = ["a = b".toList, ('\n' :: "c = d".toList)] := by decide

/-! Helper lemmas about the scanners. -/

lemma containsSub_cons_false {p : List Char} {c : Char} {rest : List Char}
    (h : containsSub p (c :: rest) = false) :
    startsWithL p (c :: rest) = false ∧ containsSub p rest = false := by
  have h' := h
  unfold containsSub at h'
  exact Bool.or_eq_false_iff.mp h'

lemma mem_of_startsWithL {p l : List Char} (h : startsWithL p l = true) :
    ∀ x ∈ p, x ∈ l := by
  induction p generalizing l with
  | nil => intro x hx; cases hx
  | cons a p ih =>
    cases l with
    | nil => simp [startsWithL] at h
    | cons c cs =>
      simp only [startsWithL, Bool.and_eq_true, beq_iff_eq] at h
      intro x hx
      rcases List.mem_cons.mp hx with hx | hx
      · subst hx; rw [h.1]; exact List.mem_cons_self _ _
      · exact List.mem_cons_of_mem _ (ih h.2 x hx)

lemma mem_of_containsSub {p l : List Char} (h : containsSub p l = true) :
    ∀ x ∈ p, x ∈ l := by
  induction l with
  | nil =>
    intro x hx
    cases p with
    | nil => cases hx
    | cons a p => simp [containsSub, startsWithL] at h
  | cons c cs ih =>
    unfold containsSub at h
    rcases Bool.or_eq_true_iff.mp h with h | h
    · exact mem_of_startsWithL h
    · intro x hx; exact List.mem_cons_of_mem _ (ih h x hx)

lemma subConstAux_id {name val : List Char} :
    ∀ (fuel : Nat) (prevW : Bool) (l : List Char),
      containsSub name l = false → subConstAux name val fuel prevW l = l := by
  intro fuel
  induction fuel with
  | zero => intro prevW l _; rfl
  | succ fuel ih =>
    intro prevW l h
    cases l with
    | nil => rfl
    | cons c rest =>
      obtain ⟨h1, h2⟩ := containsSub_cons_false h
      unfold subConstAux
      rw [h1]
      simp only [Bool.and_false, Bool.false_and, Bool.false_eq_true, if_false]
      exact congrArg (c :: ·) (ih (isWordChar c) rest h2)

lemma subConst_id {name val : String} {l : List Char}
    (h : containsSub name.toList l = false) : subConst name val l = l :=
  subConstAux_id l.length false l h

lemma substituteConstants_id {l : List Char}
    (h : ∀ p ∈ constantsTable, containsSub p.1.toList l = false) :
    substituteConstants l = l := by
  have hpi := h ("pi", "3.141592653589793") (by simp [constantsTable])
  have he := h ("e", "2.718281828459045") (by simp [constantsTable])
  have hphi := h ("phi", "1.618033988749895") (by simp [constantsTable])
  have htau := h ("tau", "6.283185307179586") (by simp [constantsTable])
  have hinf := h ("inf", "inf") (by simp [constantsTable])
  show subConst "inf" "inf"
      (subConst "tau" "6.283185307179586"
        (subConst "phi" "1.618033988749895"
          (subConst "e" "2.718281828459045"
            (subConst "pi" "3.141592653589793" l)))) = l
  rw [subConst_id hpi, subConst_id he, subConst_id hphi, subConst_id htau,
    subConst_id hinf]

lemma dropPre_some {f : List Char} :
    ∀ {l r : List Char}, dropPre f l = some r → l = f ++ r := by
  induction f with
  | nil => intro l r h; simp [dropPre] at h; simp [h]
  | cons a f ih =>
    intro l r h
    cases l with
    | nil => simp [dropPre] at h
    | cons c cs =>
      unfold dropPre at h
      by_cases hac : a == c
      · rw [if_pos hac] at h
        have := ih h
        simp only [List.cons_append]
        rw [← this, (beq_iff_eq.mp hac)]
      · rw [if_neg hac] at h; cases h

lemma startsWithL_append_self {f m : List Char} :
    startsWithL f (f ++ m) = true := by
  induction f with
  | nil => rfl
  | cons a f ih => simp [startsWithL, ih]

lemma tryTrig_none {f l : List Char}
    (h : startsWithL (f ++ ['(']) l = false) : tryTrig f l = none := by
  unfold tryTrig
  cases hd : dropPre f l with
  | none => rfl
  | some r =>
    have hl : l = f ++ r := dropPre_some hd
    cases r with
    | nil => rfl
    | cons c r2 =>
      by_cases hc : c = '('
      · exfalso
        subst hc
        rw [hl] at h
        have h2 : startsWithL (f ++ ['(']) (f ++ '(' :: r2) = true := by
          have h1 : f ++ '(' :: r2 = (f ++ ['(']) ++ r2 := by simp
          rw [h1]
          exact startsWithL_append_self
        rw [h2] at h
        cases h
      · simp [hc]

lemma trigSubAux_nil {f : List Char} : ∀ fuel, trigSubAux f fuel [] = [] := by
  intro fuel; cases fuel <;> rfl

lemma trigSubAux_id {f : List Char} :
    ∀ (fuel : Nat) (l : List Char),
      containsSub (f ++ ['(']) l = false → trigSubAux f fuel l = l := by
  intro fuel
  induction fuel with
  | zero => intro l _; rfl
  | succ fuel ih =>
    intro l h
    cases l with
    | nil => rfl
    | cons c rest =>
      obtain ⟨h1, h2⟩ := containsSub_cons_false h
      unfold trigSubAux
      rw [tryTrig_none h1]
      exact congrArg (c :: ·) (ih rest h2)

lemma trigSub_id {f : String} {l : List Char}
    (h : containsSub (f.toList ++ ['(']) l = false) : trigSub f l = l :=
  trigSubAux_id l.length l h

lemma dropPre_self_append {f : List Char} : ∀ m, dropPre f (f ++ m) = some m := by
  induction f with
  | nil => intro m; rfl
  | cons a f ih =>
    intro m
    show dropPre (a :: f) (a :: (f ++ m)) = some m
    unfold dropPre
    rw [if_pos (by simp)]
    exact ih m

lemma takeWhile_no_rparen :
    ∀ (arg : List Char), ')' ∉ arg → ∀ rest : List Char,
      (arg ++ ')' :: rest).takeWhile (fun c => c != ')') = arg := by
  intro arg
  induction arg with
  | nil => intro _ rest; simp [List.takeWhile]
  | cons a args ih =>
    intro h rest
    have ha : a ≠ ')' := by
      intro he
      exact h (by rw [he]; exact List.mem_cons_self _ _)
    have h' : ')' ∉ args := fun hm => h (List.mem_cons_of_mem _ hm)
    show List.takeWhile _ (a :: (args ++ ')' :: rest)) = _
    unfold List.takeWhile
    rw [show (a != ')') = true by simp [ha]]
    simp only []
    rw [ih h' rest]

lemma tryTrig_match {f arg rest : List Char} (h1 : arg ≠ []) (h2 : ')' ∉ arg) :
    tryTrig f (f ++ '(' :: (arg ++ ')' :: rest)) = some (arg, rest) := by
  unfold tryTrig
  rw [dropPre_self_append]
  simp only [if_true]
  rw [takeWhile_no_rparen arg h2 rest]
  rw [show (arg ++ ')' :: rest).drop arg.length = ')' :: rest from
    List.drop_left arg (')' :: rest)]
  simp only []
  cases arg with
  | nil => exact absurd rfl h1
  | cons a as => rfl

lemma trigSubAux_rewrite {c0 : Char} {f' arg : List Char}
    (h1 : arg ≠ []) (h2 : ')' ∉ arg) (fuel : Nat) :
    trigSubAux (c0 :: f') (fuel + 1) ((c0 :: f') ++ '(' :: (arg ++ [')'])) =
      (c0 :: f') ++ '(' :: (arg ++ degreeSuffix) := by
  show trigSubAux (c0 :: f') (fuel + 1) (c0 :: (f' ++ '(' :: (arg ++ [')']))) = _
  unfold trigSubAux
  rw [show c0 :: (f' ++ '(' :: (arg ++ [')'])) =
    (c0 :: f') ++ '(' :: (arg ++ ')' :: []) from rfl]
  rw [tryTrig_match h1 h2]
  simp only []
  rw [trigSubAux_nil]
  simp

lemma trigSub_rewrite {f : String} {arg : List Char}
    (hf : f.toList ≠ []) (h1 : arg ≠ []) (h2 : ')' ∉ arg) :
    trigSub f (f.toList ++ '(' :: (arg ++ [')'])) =
      f.toList ++ '(' :: (arg ++ degreeSuffix) := by
  obtain ⟨c0, f', hf'⟩ : ∃ c0 f', f.toList = c0 :: f' := by
    cases hfc : f.toList with
    | nil => exact absurd hfc hf
    | cons c0 f' => exact ⟨c0, f', rfl⟩
  unfold trigSub
  rw [hf']
  have hlen : ((c0 :: f') ++ '(' :: (arg ++ [')'])).length
      = (f'.length + arg.length + 2) + 1 := by
    simp [List.length_append, List.length_cons]
    omega
  rw [hlen]
  exact trigSubAux_rewrite h1 h2 _

lemma contains_pattern_unique {g f rest : List Char}
    (hne : g ≠ f) (hg : g.length = 3) (hf : f.length = 3)
    (hgp : '(' ∉ g) (hrest : '(' ∉ rest) :
    containsSub (g ++ ['(']) (f ++ '(' :: rest) = false := by
  obtain ⟨x, y, z, rfl⟩ := List.length_eq_three.mp hg
  obtain ⟨a, b, c, rfl⟩ := List.length_eq_three.mp hf
  have hx : x ≠ '(' := fun he => hgp (by rw [← he]; exact List.mem_cons_self _ _)
  have hy : y ≠ '(' := fun he => hgp (by rw [← he]; simp)
  have hz : z ≠ '(' := fun he => hgp (by rw [← he]; simp)
  have hsw1 : startsWithL [x, y, z, '('] (a :: b :: c :: '(' :: rest) = false := by
    refine Bool.eq_false_iff.mpr ?_
    intro htru
    simp only [startsWithL, Bool.and_eq_true, beq_iff_eq] at htru
    exact hne (by simp [htru.1, htru.2.1, htru.2.2.1])
  have hsw2 : startsWithL [x, y, z, '('] (b :: c :: '(' :: rest) = false := by
    refine Bool.eq_false_iff.mpr ?_
    intro htru
    simp only [startsWithL, Bool.and_eq_true, beq_iff_eq] at htru
    exact hz htru.2.2.1
  have hsw3 : startsWithL [x, y, z, '('] (c :: '(' :: rest) = false := by
    refine Bool.eq_false_iff.mpr ?_
    intro htru
    simp only [startsWithL, Bool.and_eq_true, beq_iff_eq] at htru
    exact hy htru.2.1
  have hsw4 : startsWithL [x, y, z, '('] ('(' :: rest) = false := by
    refine Bool.eq_false_iff.mpr ?_
    intro htru
    simp only [startsWithL, Bool.and_eq_true, beq_iff_eq] at htru
    exact hx htru.1
  have hcont : containsSub [x, y, z, '('] rest = false := by
    refine Bool.eq_false_iff.mpr ?_
    intro htru
    exact hrest (mem_of_containsSub htru '(' (by simp))
  show containsSub [x, y, z, '('] (a :: b :: c :: '(' :: rest) = false
  simp only [containsSub, hsw1, hsw2, hsw3, hsw4, hcont, Bool.or_self,
    Bool.or_false, Bool.false_or]

/-- Identity of one trig pass on a string of the shape f(rest) when the
pass is for a different three-letter name g. -/
lemma trigSub_pass_id (g f : String) (rest : List Char)
    (hne : g.toList ≠ f.toList) (hg : g.toList.length = 3)
    (hf : f.toList.length = 3) (hgp : '(' ∉ g.toList) (hrest : '(' ∉ rest) :
    trigSub g (f.toList ++ '(' :: rest) = f.toList ++ '(' :: rest :=
  trigSub_id (contains_pattern_unique hne hg hf hgp hrest)

lemma handleSpecial_id {l : List Char}
    (h : ∀ fn ∈ trigFuncs, containsSub (fn.toList ++ ['(']) l = false) :
    handleSpecialFunctions .degrees l = l := by
  have hsin := h "sin" (by simp [trigFuncs])
  have hcos := h "cos" (by simp [trigFuncs])
  have htan := h "tan" (by simp [trigFuncs])
  have hcot := h "cot" (by simp [trigFuncs])
  have hsec := h "sec" (by simp [trigFuncs])
  have hcsc := h "csc" (by simp [trigFuncs])
  show trigSub "csc" (trigSub "sec" (trigSub "cot" (trigSub "tan"
    (trigSub "cos" (trigSub "sin" l))))) = l
  rw [trigSub_id hsin, trigSub_id hcos, trigSub_id htan, trigSub_id hcot,
    trigSub_id hsec, trigSub_id hcsc]

lemma handleSpecial_degrees_unfold (l : List Char) :
    handleSpecialFunctions .degrees l =
      trigSub "csc" (trigSub "sec" (trigSub "cot" (trigSub "tan"
        (trigSub "cos" (trigSub "sin" l))))) := rfl

lemma handleSpecial_standalone (f : String) (hf : f ∈ trigFuncs)
    (arg : List Char) (h1 : arg ≠ []) (h2 : '(' ∉ arg) (h3 : ')' ∉ arg) :
    handleSpecialFunctions .degrees (f.toList ++ '(' :: (arg ++ [')'])) =
      f.toList ++ '(' :: (arg ++ degreeSuffix) := by
  -- placeholder-unfold
  have horig : '(' ∉ arg ++ [')'] := by
    intro hm
    rcases List.mem_append.mp hm with hm | hm
    · exact h2 hm
    · revert hm; decide
  have hrew : '(' ∉ arg ++ degreeSuffix := by
    intro hm
    rcases List.mem_append.mp hm with hm | hm
    · exact h2 hm
    · revert hm; decide
  have hf' : f = "sin" ∨ f = "cos" ∨ f = "tan" ∨ f = "cot" ∨ f = "sec" ∨ f = "csc" := by
    simpa [trigFuncs] using hf
  rcases hf' with rfl | rfl | rfl | rfl | rfl | rfl
  · rw [handleSpecial_degrees_unfold,
      trigSub_rewrite (by decide) h1 h3,
      trigSub_pass_id "cos" "sin" _ (by decide) (by decide) (by decide) (by decide) hrew,
      trigSub_pass_id "tan" "sin" _ (by decide) (by decide) (by decide) (by decide) hrew,
      trigSub_pass_id "cot" "sin" _ (by decide) (by decide) (by decide) (by decide) hrew,
      trigSub_pass_id "sec" "sin" _ (by decide) (by decide) (by decide) (by decide) hrew,
      trigSub_pass_id "csc" "sin" _ (by decide) (by decide) (by decide) (by decide) hrew]
  · rw [handleSpecial_degrees_unfold,
      trigSub_pass_id "sin" "cos" _ (by decide) (by decide) (by decide) (by decide) horig,
      trigSub_rewrite (by decide) h1 h3,
      trigSub_pass_id "tan" "cos" _ (by decide) (by decide) (by decide) (by decide) hrew,
      trigSub_pass_id "cot" "cos" _ (by decide) (by decide) (by decide) (by decide) hrew,
      trigSub_pass_id "sec" "cos" _ (by decide) (by decide) (by decide) (by decide) hrew,
      trigSub_pass_id "csc" "cos" _ (by decide) (by decide) (by decide) (by decide) hrew]
  · rw [handleSpecial_degrees_unfold,
      trigSub_pass_id "sin" "tan" _ (by decide) (by decide) (by decide) (by decide) horig,
      trigSub_pass_id "cos" "tan" _ (by decide) (by decide) (by decide) (by decide) horig,
      trigSub_rewrite (by decide) h1 h3,
      trigSub_pass_id "cot" "tan" _ (by decide) (by decide) (by decide) (by decide) hrew,
      trigSub_pass_id "sec" "tan" _ (by decide) (by decide) (by decide) (by decide) hrew,
      trigSub_pass_id "csc" "tan" _ (by decide) (by decide) (by decide) (by decide) hrew]
  · rw [handleSpecial_degrees_unfold,
      trigSub_pass_id "sin" "cot" _ (by decide) (by decide) (by decide) (by decide) horig,
      trigSub_pass_id "cos" "cot" _ (by decide) (by decide) (by decide) (by decide) horig,
      trigSub_pass_id "tan" "cot" _ (by decide) (by decide) (by decide) (by decide) horig,
      trigSub_rewrite (by decide) h1 h3,
      trigSub_pass_id "sec" "cot" _ (by decide) (by decide) (by decide) (by decide) hrew,
      trigSub_pass_id "csc" "cot" _ (by decide) (by decide) (by decide) (by decide) hrew]
  · rw [handleSpecial_degrees_unfold,
      trigSub_pass_id "sin" "sec" _ (by decide) (by decide) (by decide) (by decide) horig,
      trigSub_pass_id "cos" "sec" _ (by decide) (by decide) (by decide) (by decide) horig,
      trigSub_pass_id "tan" "sec" _ (by decide) (by decide) (by decide) (by decide) horig,
      trigSub_pass_id "cot" "sec" _ (by decide) (by decide) (by decide) (by decide) horig,
      trigSub_rewrite (by decide) h1 h3,
      trigSub_pass_id "csc" "sec" _ (by decide) (by decide) (by decide) (by decide) hrew]
  · rw [handleSpecial_degrees_unfold,
      trigSub_pass_id "sin" "csc" _ (by decide) (by decide) (by decide) (by decide) horig,
      trigSub_pass_id "cos" "csc" _ (by decide) (by decide) (by decide) (by decide) horig,
      trigSub_pass_id "tan" "csc" _ (by decide) (by decide) (by decide) (by decide) horig,
      trigSub_pass_id "cot" "csc" _ (by decide) (by decide) (by decide) (by decide) horig,
      trigSub_pass_id "sec" "csc" _ (by decide) (by decide) (by decide) (by decide) horig,
      trigSub_rewrite (by decide) h1 h3]

lemma EvalR_det {e : Expr} {x y : ℝ} (h1 : EvalR e x) (h2 : EvalR e y) :
    x = y := by
  induction h1 generalizing y with
  | num q => cases h2; rfl
  | piConst => cases h2; rfl
  | add ha hb iha ihb =>
    cases h2 with
    | add ha' hb' => rw [iha ha', ihb hb']
  | sub ha hb iha ihb =>
    cases h2 with
    | sub ha' hb' => rw [iha ha', ihb hb']
  | mul ha hb iha ihb =>
    cases h2 with
    | mul ha' hb' => rw [iha ha', ihb hb']
  | div ha hb hz iha ihb =>
    cases h2 with
    | div ha' hb' hz' => rw [iha ha', ihb hb']
  | neg ha iha =>
    cases h2 with
    | neg ha' => rw [iha ha']
  | sin ha iha =>
    cases h2 with
    | sin ha' => rw [iha ha']
  | cos ha iha =>
    cases h2 with
    | cos ha' => rw [iha ha']
  | asin ha iha =>
    cases h2 with
    | asin ha' => rw [iha ha']
  | acos ha iha =>
    cases h2 with
    | acos ha' => rw [iha ha']
  | atan ha iha =>
    cases h2 with
    | atan ha' => rw [iha ha']

lemma findSplit_none {sep l : List Char} (h : containsSub sep l = false) :
    findSplit sep l = none := by
  induction l with
  | nil => rfl
  | cons c rest ih =>
    obtain ⟨h1, h2⟩ := containsSub_cons_false h
    unfold findSplit
    simp only [h1, Bool.false_eq_true, if_false]
    rw [ih h2]

lemma splitSubAux_nomatch {sep l : List Char} (h : containsSub sep l = false) :
    ∀ fuel, splitSubAux sep fuel l = [l] := by
  intro fuel
  cases fuel with
  | zero => rfl
  | succ fuel =>
    unfold splitSubAux
    rw [findSplit_none h]

lemma findSplit_boundary {e1 : List Char} :
    ∀ (e2 : List Char), containsSub historySep e1 = false →
      e1.getLast? ≠ some '\n' →
      findSplit historySep (e1 ++ '\n' :: '\n' :: e2) = some (e1, e2) := by
  induction e1 with
  | nil =>
    intro e2 _ _
    show findSplit historySep ('\n' :: '\n' :: e2) = some ([], e2)
    unfold findSplit
    rw [if_pos (by simp [historySep, startsWithL] :
      startsWithL historySep ('\n' :: '\n' :: e2) = true)]
    rfl
  | cons c e1' ih =>
    intro e2 h1 h2
    obtain ⟨hsw, hrest⟩ := containsSub_cons_false h1
    have hswfull : startsWithL historySep (c :: (e1' ++ '\n' :: '\n' :: e2)) = false := by
      refine Bool.eq_false_iff.mpr ?_
      intro htru
      simp only [historySep, startsWithL, Bool.and_eq_true, beq_iff_eq] at htru
      obtain ⟨hc, htl⟩ := htru
      cases e1' with
      | nil =>
        exact h2 (by rw [hc]; rfl)
      | cons d e1'' =>
        simp only [List.cons_append, startsWithL, Bool.and_eq_true, beq_iff_eq] at htl
        apply Bool.eq_false_iff.mp hsw
        simp [historySep, startsWithL]
        exact ⟨hc, htl.1⟩
    have h2' : e1'.getLast? ≠ some '\n' := by
      cases e1' with
      | nil => simp
      | cons d e1'' =>
        intro hlast
        exact h2 (by rw [List.getLast?_cons_cons]; exact hlast)
    show findSplit historySep (c :: (e1' ++ '\n' :: '\n' :: e2)) = some (c :: e1', e2)
    unfold findSplit
    simp only [hswfull, Bool.false_eq_true, if_false]
    rw [ih e2 hrest h2']

lemma splitSub_two {e1 e2 : List Char}
    (h1 : containsSub historySep e1 = false)
    (hl : e1.getLast? ≠ some '\n')
    (h2 : containsSub historySep e2 = false) :
    splitSub historySep (e1 ++ historySep ++ e2) = [e1, e2] := by
  have hassoc : e1 ++ historySep ++ e2 = e1 ++ '\n' :: '\n' :: e2 := by
    simp [historySep]
  rw [hassoc]
  unfold splitSub
  have hlen : (e1 ++ '\n' :: '\n' :: e2).length = (e1.length + e2.length + 1) + 1 := by
    simp [List.length_append]
    omega
  rw [hlen]
  unfold splitSubAux
  rw [findSplit_boundary e2 h1 hl]
  show e1 :: splitSubAux historySep (e1.length + e2.length + 1) e2 = [e1, e2]
  rw [splitSubAux_nomatch h2]

example : substituteConstants "pi".toList = "3.141592653589793".toList := by decide
example : substituteConstants "piano".toList = "piano".toList := by decide
example : substituteConstants "sin(90)".toList = "sin(90)".toList := by decide
example : substituteConstants "2+2".toList = "2+2".toList := by decide
example : handleSpecialFunctions .degrees "sin(90)".toList
    = "sin(90 * pi/180)".toList := by decide
example : handleSpecialFunctions .degrees "sin(cos(1))".toList
    = "sin(cos(1 * pi/180 * pi/180))".toList := by decide
example : handleSpecialFunctions .degrees "asin(0)".toList
    = "asin(0 * pi/180)".toList := by decide
example : handleSpecialFunctions .radians "sin(90)".toList
    = "sin(90)".toList := by decide

/-! Claim theorems. -/

/-- Claim C1: for every expression accepted by the external evaluator,
evaluate classifies the returned value: an exact float, integer or
rational is coerced to a real double; a complex value is returned as a
complex pair; any other value is returned as the opaque symbolic
fallback, with no further numeric coercion and no error raised. -/
theorem C1_evaluate_classifies
    (ext : List Char → Except String SymValue) (mode : AngleMode)
    (E : List Char) (v : SymValue)
    (h : ext (preprocess mode E) = .ok v) :
    evaluateAbs ext mode E = .ok (classify v)
    ∧ (∀ q, v = .float q → evaluateAbs ext mode E = .ok (.real q))
    ∧ (∀ n, v = .integer n → evaluateAbs ext mode E = .ok (.real n))
    ∧ (∀ q, v = .rational q → evaluateAbs ext mode E = .ok (.real q))
    ∧ (∀ a b, v = .complexVal a b →
        evaluateAbs ext mode E = .ok (.complexPair a b))
    ∧ (∀ e, v = .symbolic e → evaluateAbs ext mode E = .ok (.fallback e)) := by
  have hev : evaluateAbs ext mode E = .ok (classify v) := by
    unfold evaluateAbs
    rw [h]
  refine ⟨hev, ?_, ?_, ?_, ?_, ?_⟩
  · intro q hq; subst hq; exact hev
  · intro n hn; subst hn; exact hev
  · intro q hq; subst hq; exact hev
  · intro a b hab; subst hab; exact hev
  · intro e he; subst he; exact hev

/-- Witness for C1 at a concrete evaluator and expression. -/
theorem C1_witness :
    evaluateAbs (fun _ => .ok (.float 4)) .radians ("2+2").toList
      = .ok (.real 4) := by
  have h := C1_evaluate_classifies (fun _ => .ok (.float 4)) .radians
    ("2+2").toList (.float 4) rfl
  exact h.2.1 4 rfl

/-- Claim C2: every failure of the external evaluator inside evaluate is
caught and surfaced as a MathError carrying the original message, and
evaluating 1/0 raises such a MathError. -/
theorem C2_failure_wrapped :
    (∀ (ext : List Char → Except String SymValue) (mode : AngleMode)
      (E : List Char) (m : String),
      ext (preprocess mode E) = .error m →
        evaluateAbs ext mode E = .error ("Error evaluating expression: " ++ m))
    ∧ evaluate .radians "1/0".toList
        = .error "Error evaluating expression: division by zero" := by
  constructor
  · intro ext mode E m h
    unfold evaluateAbs
    rw [h]
  · with_unfolding_all rfl

/-- Witness for C2 at a concrete failing evaluator. -/
theorem C2_witness :
    evaluateAbs (fun _ => .error "boom") .radians "x".toList
      = .error ("Error evaluating expression: " ++ "boom") :=
  C2_failure_wrapped.1 _ .radians "x".toList "boom" rfl

/-- Counterexample to claim C3 as stated: the memory add operation
mutates the in-memory register but leaves durable storage holding the
stale register, so not every mutating memory operation persists the
full state before returning. -/
theorem C3_counterexample :
    (memory_add 5 ⟨[], 0, some ⟨0, []⟩⟩).file
      ≠ some (encodeMemory (memory_add 5 ⟨[], 0, some ⟨0, []⟩⟩)) := by
  intro h
  have h1 : (memory_add 5 ⟨[], 0, some ⟨0, []⟩⟩).file = some ⟨0, []⟩ := rfl
  have h2 : encodeMemory (memory_add 5 ⟨[], 0, some ⟨0, []⟩⟩) = ⟨0 + 5, []⟩ := rfl
  rw [h1, h2] at h
  have h4 : (0 : ℚ) = 0 + 5 :=
    congrArg MemoryFile.memory_register (Option.some.inj h)
  norm_num at h4

/-- Amended claim C3: store and clear persist synchronously (store
writes the previous register value together with the updated item
list), add and subtract update only the in-memory register and never
write to durable storage, and a persistence failure leaves storage
untouched while the in-memory mutation still takes effect and no error
is raised. -/
theorem C3_memory_persistence :
    ∀ (v : ℚ) (expr ts : List Char) (ok : Bool) (s : MemoryState),
      ((memory_store v expr ts ok s).memory_register = v
        ∧ (memory_store v expr ts ok s).memory
          = s.memory ++ [MemoryItem.mk v expr ts]
        ∧ (memory_store v expr ts ok s).file = (if ok then
            some (MemoryFile.mk s.memory_register
              ((s.memory ++ [MemoryItem.mk v expr ts]).map
                (fun i => (i.value, i.expression, i.timestamp))))
            else s.file))
      ∧ (memory_add v s).memory_register = s.memory_register + v
      ∧ (memory_add v s).memory = s.memory
      ∧ (memory_add v s).file = s.file
      ∧ (memory_subtract v s).memory_register = s.memory_register - v
      ∧ (memory_subtract v s).memory = s.memory
      ∧ (memory_subtract v s).file = s.file
      ∧ (memory_clear ok s).memory_register = 0
      ∧ (memory_clear ok s).memory = []
      ∧ (memory_clear ok s).file = (if ok then some ⟨0, []⟩ else s.file) := by
  intro v expr ts ok s
  cases ok <;>
    simp [memory_store, memory_add, memory_subtract, memory_clear,
      add_to_memory, clear_memory, save_memory, encodeMemory]

/-- Claim C5: for every expression containing no constant identifier
and no trig-function call pattern, evaluation under degree mode and
radian mode agree, whatever the external evaluator does. -/
theorem C5_mode_independent
    (ext : List Char → Except String SymValue) (E : List Char)
    (hconst : ∀ p ∈ constantsTable, containsSub p.1.toList E = false)
    (htrig : ∀ fn ∈ trigFuncs, containsSub (fn.toList ++ ['(']) E = false) :
    evaluateAbs ext .degrees E = evaluateAbs ext .radians E := by
  unfold evaluateAbs preprocess
  rw [substituteConstants_id hconst, handleSpecial_id htrig]
  rfl

/-- Witness for C5 at a concrete trig-free, constant-free expression. -/
theorem C5_witness :
    evaluateAbs (fun l => .ok (.symbolic (.ident l))) .degrees "2+3".toList
      = evaluateAbs (fun l => .ok (.symbolic (.ident l))) .radians "2+3".toList :=
  C5_mode_independent _ _ (by decide) (by decide)

/-- Claim C6: constant substitution is word-bounded: the expression pi
evaluates to the stored double approximation of pi, while identifiers
that merely contain a constant name, such as piano or pie, are left
textually intact and come back as an opaque unknown identifier rather
than silently receiving the constant value. -/
theorem C6_word_boundary :
    evaluate .radians "pi".toList
      = .ok (.real (3141592653589793 / 1000000000000000))
    ∧ substituteConstants "piano".toList = "piano".toList
    ∧ substituteConstants "pie".toList = "pie".toList
    ∧ evaluate .radians "piano".toList
      = .ok (.fallback (.ident "piano".toList)) := by
  refine ⟨by with_unfolding_all rfl, by decide, by decide, ?_⟩
  with_unfolding_all rfl

/-- Claim C7: solve_equation splits an equation at its first equals
sign (an expression without one is equated to zero), returns real
roots, and on the quadratic x^2 - 4 = 0 returns exactly the roots 2 and
-2 as a two-element duplicate-free list. -/
theorem C7_solve_quadratic :
    solve_equation "x^2 - 4 = 0".toList = .ok [-2, 2]
    ∧ findSplit ['='] "x^2 - 4 = 0".toList
      = some ("x^2 - 4 ".toList, " 0".toList)
    ∧ solve_equation "x^2 - 4".toList = .ok [-2, 2]
    ∧ (2 : ℚ) ∈ [(-2 : ℚ), 2]
    ∧ (-2 : ℚ) ∈ [(-2 : ℚ), 2]
    ∧ [(-2 : ℚ), 2].length = 2
    ∧ (-2 : ℚ) ≠ 2 := by
  refine ⟨by with_unfolding_all rfl, by decide, by with_unfolding_all rfl,
    by simp, by simp, rfl, by norm_num⟩

/-- Claim C8: evaluating 2+2 produces the exact real value 4, an
integer-valued result, and the display layer renders it as the integer
string 4 rather than a floating representation. -/
theorem C8_integer_result :
    evaluate .radians "2+2".toList = .ok (.real 4)
    ∧ (4 : ℚ).den = 1
    ∧ resultString (.real 4) = .ok "4" := by
  refine ⟨by with_unfolding_all rfl, rfl, ?_⟩
  with_unfolding_all rfl

/-- Counterexample to claim C9 as stated: two recorded entries that do
not contain the blank-line separator, whose first entry merely ends in
a newline, fail to round-trip through export and import. -/
theorem C9_counterexample :
    add_to_history "c".toList "d".toList
        (add_to_history "a".toList "b\n".toList [])
      = ["a = b\n".toList, "c = d".toList]
    ∧ containsSub historySep "a = b\n".toList = false
    ∧ containsSub historySep "c = d".toList = false
    ∧ load_history_entries (save_history_blob ["a = b\n".toList, "c = d".toList])
      = ["a = b".toList, "\nc = d".toList]
    ∧ ["a = b".toList, "\nc = d".toList] ≠ ["a = b\n".toList, "c = d".toList] :=
  ⟨by decide, by decide, by decide, by decide, by decide⟩

/-- Amended claim C9: export then import reproduces two recorded
entries provided neither contains the blank-line separator, the first
does not end in a newline, and both are non-blank (import discards
blank entries, and a trailing newline on the first entry merges into
the separator). -/
theorem C9_roundtrip (e1 e2 : List Char)
    (h1 : containsSub historySep e1 = false)
    (h2 : containsSub historySep e2 = false)
    (hl : e1.getLast? ≠ some '\n')
    (k1 : keptEntry e1 = true) (k2 : keptEntry e2 = true) :
    load_history_entries (save_history_blob [e1, e2]) = [e1, e2] := by
  have hblob : save_history_blob [e1, e2] = e1 ++ historySep ++ e2 := rfl
  rw [hblob]
  unfold load_history_entries
  rw [splitSub_two h1 hl h2]
  simp [List.filter, k1, k2]

/-- Witness for C9 at two concrete well-formed entries. -/
theorem C9_witness :
    load_history_entries (save_history_blob ["a = b".toList, "c = d".toList])
      = ["a = b".toList, "c = d".toList] :=
  C9_roundtrip _ _ (by decide) (by decide) (by decide) (by decide) (by decide)

lemma evalR_asin0_deg : evaluatesToR .degrees "asin(0)".toList 0 := by
  refine ⟨.call ['a', 's', 'i', 'n']
    (.div (.mul (.num 0) (.ident ['p', 'i'])) (.num 180)), by decide, ?_⟩
  have h := EvalR.asin (EvalR.div (EvalR.mul (EvalR.num 0) EvalR.piConst)
    (EvalR.num 180) (by norm_num))
  have heq : Real.arcsin (((0 : ℚ) : ℝ) * Real.pi / ((180 : ℚ) : ℝ)) = 0 := by
    norm_num [Real.arcsin_zero]
  exact heq ▸ h

lemma evalR_asin0_rad : evaluatesToR .radians "asin(0)".toList 0 := by
  refine ⟨.call ['a', 's', 'i', 'n'] (.num 0), by decide, ?_⟩
  have h := EvalR.asin (EvalR.num 0)
  have heq : Real.arcsin ((0 : ℚ) : ℝ) = 0 := by norm_num [Real.arcsin_zero]
  exact heq ▸ h

/-- Counterexample to claim C4 as stated: in the expression
sin(cos(1)) the inner call cos(1) has a parenthesis-free argument, yet
after the degree rewrite the preprocessed string does not contain
cos(1 * pi/180); the overlapping regex matches scale the inner argument
twice instead. -/
theorem C4_counterexample :
    handleSpecialFunctions .degrees "sin(cos(1))".toList
      = "sin(cos(1 * pi/180 * pi/180))".toList
    ∧ containsSub "cos(1)".toList "sin(cos(1))".toList = true
    ∧ containsSub "cos(1 * pi/180)".toList
        (handleSpecialFunctions .degrees "sin(cos(1))".toList) = false :=
  ⟨by decide, by decide, by decide⟩

/-- Amended claim C4: in degree mode a standalone trig call f(arg) with
a parenthesis-free argument is rewritten to f(arg * pi/180) for each of
the six trig names (calls nested inside another trig argument can
receive the factor more than once); consequently sin(90) in degrees and
sin(pi/2) in radians agree within 1e-9, and sin(0) and cos(0) have the
same value in both modes. -/
theorem C4_degree_rewrite :
    (∀ f ∈ trigFuncs, ∀ arg : List Char,
      arg ≠ [] → '(' ∉ arg → ')' ∉ arg →
      handleSpecialFunctions .degrees (f.toList ++ '(' :: (arg ++ [')']))
        = f.toList ++ '(' :: (arg ++ degreeSuffix))
    ∧ evaluatesToR .degrees "sin(90)".toList (Real.sin (90 * Real.pi / 180))
    ∧ evaluatesToR .radians "sin(pi/2)".toList
        (Real.sin ((3141592653589793 / 1000000000000000 : ℝ) / 2))
    ∧ |Real.sin (90 * Real.pi / 180)
        - Real.sin ((3141592653589793 / 1000000000000000 : ℝ) / 2)|
        ≤ 1 / 1000000000
    ∧ evaluatesToR .degrees "sin(0)".toList 0
    ∧ evaluatesToR .radians "sin(0)".toList 0
    ∧ evaluatesToR .degrees "cos(0)".toList 1
    ∧ evaluatesToR .radians "cos(0)".toList 1 := by
  refine ⟨?_, ?_, ?_, ?_, ?_, ?_, ?_, ?_⟩
  · intro f hf arg h1 h2 h3
    exact handleSpecial_standalone f hf arg h1 h2 h3
  · refine ⟨.call ['s', 'i', 'n']
      (.div (.mul (.num 90) (.ident ['p', 'i'])) (.num 180)), by decide, ?_⟩
    have h := EvalR.sin (EvalR.div (EvalR.mul (EvalR.num 90) EvalR.piConst)
      (EvalR.num 180) (by norm_num))
    have heq : Real.sin (((90 : ℚ) : ℝ) * Real.pi / ((180 : ℚ) : ℝ))
        = Real.sin (90 * Real.pi / 180) := by norm_num
    exact heq ▸ h
  · refine ⟨.call ['s', 'i', 'n']
      (.div (.num (3141592653589793 / 1000000000000000)) (.num 2)),
      by with_unfolding_all rfl, ?_⟩
    have h := EvalR.sin (EvalR.div
      (EvalR.num (3141592653589793 / 1000000000000000)) (EvalR.num 2)
      (by norm_num))
    have heq : Real.sin (((3141592653589793 / 1000000000000000 : ℚ) : ℝ)
        / ((2 : ℚ) : ℝ))
        = Real.sin ((3141592653589793 / 1000000000000000 : ℝ) / 2) := by
      norm_num
    exact heq ▸ h
  · have h90 : (90 : ℝ) * Real.pi / 180 = Real.pi / 2 := by ring
    rw [h90, Real.sin_pi_div_two]
    have hle : Real.sin ((3141592653589793 / 1000000000000000 : ℝ) / 2) ≤ 1 :=
      Real.sin_le_one _
    have heq : Real.sin ((3141592653589793 / 1000000000000000 : ℝ) / 2)
        = Real.cos (Real.pi / 2 - (3141592653589793 / 1000000000000000 : ℝ) / 2) :=
      (Real.cos_pi_div_two_sub _).symm
    have hquad : 1 - (Real.pi / 2 - (3141592653589793 / 1000000000000000 : ℝ) / 2) ^ 2 / 2
        ≤ Real.cos (Real.pi / 2 - (3141592653589793 / 1000000000000000 : ℝ) / 2) :=
      Real.one_sub_sq_div_two_le_cos
    have hp1 : (3.141592 : ℝ) < Real.pi := Real.pi_gt_d6
    have hp2 : Real.pi < 3.141593 := Real.pi_lt_d6
    have habs : |1 - Real.sin ((3141592653589793 / 1000000000000000 : ℝ) / 2)|
        = 1 - Real.sin ((3141592653589793 / 1000000000000000 : ℝ) / 2) :=
      abs_of_nonneg (by linarith)
    rw [habs]
    have hd : (Real.pi / 2 - (3141592653589793 / 1000000000000000 : ℝ) / 2) ^ 2 / 2
        ≤ 1 / 1000000000 := by
      nlinarith [hp1, hp2, mul_pos (sub_pos.mpr hp1) (sub_pos.mpr hp2)]
    linarith [hquad, hd, heq.symm ▸ hquad]
  · refine ⟨.call ['s', 'i', 'n']
      (.div (.mul (.num 0) (.ident ['p', 'i'])) (.num 180)), by decide, ?_⟩
    have h := EvalR.sin (EvalR.div (EvalR.mul (EvalR.num 0) EvalR.piConst)
      (EvalR.num 180) (by norm_num))
    have heq : Real.sin (((0 : ℚ) : ℝ) * Real.pi / ((180 : ℚ) : ℝ)) = 0 := by
      norm_num
    exact heq ▸ h
  · refine ⟨.call ['s', 'i', 'n'] (.num 0), by decide, ?_⟩
    have h := EvalR.sin (EvalR.num 0)
    have heq : Real.sin ((0 : ℚ) : ℝ) = 0 := by norm_num
    exact heq ▸ h
  · refine ⟨.call ['c', 'o', 's']
      (.div (.mul (.num 0) (.ident ['p', 'i'])) (.num 180)), by decide, ?_⟩
    have h := EvalR.cos (EvalR.div (EvalR.mul (EvalR.num 0) EvalR.piConst)
      (EvalR.num 180) (by norm_num))
    have heq : Real.cos (((0 : ℚ) : ℝ) * Real.pi / ((180 : ℚ) : ℝ)) = 1 := by
      norm_num
    exact heq ▸ h
  · refine ⟨.call ['c', 'o', 's'] (.num 0), by decide, ?_⟩
    have h := EvalR.cos (EvalR.num 0)
    have heq : Real.cos ((0 : ℚ) : ℝ) = 1 := by norm_num
    exact heq ▸ h

/-- Witness for C4 at the concrete call sin(90). -/
theorem C4_witness :
    handleSpecialFunctions .degrees ("sin".toList ++ '(' :: (['9', '0'] ++ [')']))
      = "sin".toList ++ '(' :: (['9', '0'] ++ degreeSuffix) :=
  C4_degree_rewrite.1 "sin" (by decide) ['9', '0'] (by decide) (by decide)
    (by decide)

/-- Counterexample to claim C10 as stated: the suffix match does
rewrite asin(0) to asin(0 * pi/180), but the result does not change
relative to radians mode, both modes evaluating to zero. -/
theorem C10_counterexample :
    handleSpecialFunctions .degrees "asin(0)".toList = "asin(0 * pi/180)".toList
    ∧ evaluatesToR .degrees "asin(0)".toList 0
    ∧ evaluatesToR .radians "asin(0)".toList 0 :=
  ⟨by decide, evalR_asin0_deg, evalR_asin0_rad⟩

/-- Amended claim C10: the degree rewrite pattern matches trig names
occurring as suffixes of longer function names, so inverse-trig calls
such as asin, acos and atan also get their arguments multiplied by
pi/180; the result changes relative to radians mode when the scaled
argument has a different function value, as for atan(45), but not for
every such expression: asin(0) evaluates to the same value in both
modes. -/
theorem C10_suffix_match :
    handleSpecialFunctions .degrees "asin(0)".toList = "asin(0 * pi/180)".toList
    ∧ handleSpecialFunctions .degrees "acos(2)".toList = "acos(2 * pi/180)".toList
    ∧ handleSpecialFunctions .degrees "atan(45)".toList = "atan(45 * pi/180)".toList
    ∧ evaluatesToR .degrees "atan(45)".toList (Real.arctan (45 * Real.pi / 180))
    ∧ evaluatesToR .radians "atan(45)".toList (Real.arctan 45)
    ∧ Real.arctan (45 * Real.pi / 180) ≠ Real.arctan 45
    ∧ (∀ r r' : ℝ, evaluatesToR .degrees "asin(0)".toList r →
        evaluatesToR .radians "asin(0)".toList r' → r = r') := by
  refine ⟨by decide, by decide, by decide, ?_, ?_, ?_, ?_⟩
  · refine ⟨.call ['a', 't', 'a', 'n']
      (.div (.mul (.num 45) (.ident ['p', 'i'])) (.num 180)), by decide, ?_⟩
    have h := EvalR.atan (EvalR.div (EvalR.mul (EvalR.num 45) EvalR.piConst)
      (EvalR.num 180) (by norm_num))
    have heq : Real.arctan (((45 : ℚ) : ℝ) * Real.pi / ((180 : ℚ) : ℝ))
        = Real.arctan (45 * Real.pi / 180) := by norm_num
    exact heq ▸ h
  · refine ⟨.call ['a', 't', 'a', 'n'] (.num 45), by decide, ?_⟩
    have h := EvalR.atan (EvalR.num 45)
    have heq : Real.arctan ((45 : ℚ) : ℝ) = Real.arctan 45 := by norm_num
    exact heq ▸ h
  · intro hEq
    have h45 : (45 : ℝ) * Real.pi / 180 = 45 := Real.arctan_injective hEq
    have hp2 : Real.pi < 3.141593 := Real.pi_lt_d6
    have hπ : Real.pi = 180 := by linarith
    rw [hπ] at hp2
    norm_num at hp2
  · intro r r' hr hr'
    obtain ⟨e, he, hev⟩ := hr
    obtain ⟨e', he', hev'⟩ := hr'
    obtain ⟨e0, he0, hev0⟩ := evalR_asin0_deg
    obtain ⟨e1, he1, hev1⟩ := evalR_asin0_rad
    rw [he0] at he
    rw [he1] at he'
    have hee : e = e0 := (Option.some.inj he).symm
    have hee' : e' = e1 := (Option.some.inj he').symm
    subst hee
    subst hee'
    rw [EvalR_det hev hev0, EvalR_det hev' hev1]

/-- Witness for C10: the hypotheses of the final conjunct hold at the
concrete value zero, and applying the theorem equates the two modes. -/
theorem C10_witness :
    evaluatesToR .degrees "asin(0)".toList 0
    ∧ evaluatesToR .radians "asin(0)".toList 0
    ∧ (0 : ℝ) = 0 :=
  ⟨evalR_asin0_deg, evalR_asin0_rad,
    C10_suffix_match.2.2.2.2.2.2 0 0 evalR_asin0_deg evalR_asin0_rad⟩

end Calculator
